import Mathlib

set_option maxRecDepth 1000000

/-!
Verification development for the lx-crm repository.

Part A models the two scripts present in the repository source
(`encode_fonts.py` and `create_subset_script.py`) as pure functions over an
explicit filesystem and an event trace.  Part B models the command-catalog
help engine that the specification describes (its code is not in the
repository source tree, so it is modelled from the specification's words).
All definitions come first, followed by the theorems.
-/

/-! ### Part A: shared text utilities -/

/-- Boolean test that `needle` is a prefix of `hay` (character lists). -/
def leadsWith : List Char → List Char → Bool
  | [], _ => true
  | _ :: _, [] => false
  | a :: as, b :: bs => a == b && leadsWith as bs

/-- Boolean test that `needle` occurs as a contiguous substring of `hay`. -/
def hasSub (needle hay : List Char) : Bool :=
  (List.range (hay.length + 1)).any fun i => leadsWith needle (hay.drop i)

/-- Fuel-driven worker for `replaceAll`: replaces each non-overlapping
occurrence of `old` (scanning left to right) by `new`, as Python's
`str.replace` does for a non-empty pattern. -/
def replaceAllAux (old new : List Char) : Nat → List Char → List Char
  | 0, cs => cs
  | _ + 1, [] => []
  | fuel + 1, c :: rest =>
    if old ≠ [] ∧ leadsWith old (c :: rest) then
      new ++ replaceAllAux old new fuel ((c :: rest).drop old.length)
    else
      c :: replaceAllAux old new fuel rest

/-- Replace all non-overlapping occurrences of `old` by `new`. -/
def replaceAll (old new cs : List Char) : List Char :=
  replaceAllAux old new cs.length cs

/-- Python's `str.replace` lifted to Lean strings. -/
def pyReplace (s old new : String) : String :=
  String.mk (replaceAll old.data new.data s.data)

/-! ### Part A: base64 encoding (the `base64.b64encode` step) -/

/-- The standard base64 alphabet. -/
def b64Alphabet : List Char :=
  "ABCDEFGHIJKLMNOPQRSTUVWXYZabcdefghijklmnopqrstuvwxyz0123456789+/".data

/-- Character for a 6-bit value. -/
def sextetChar (n : Nat) : Char := b64Alphabet.getD n 'A'

/-- 6-bit value of an alphabet character. -/
def charSextet (c : Char) : Nat := b64Alphabet.indexOf c

/-- Standard base64 encoding of a byte sequence (bytes as `Nat` below 256),
processing three input bytes into four output characters, with `=` padding
exactly as `base64.b64encode` produces it. -/
def b64encode : List Nat → List Char
  | [] => []
  | [a] => [sextetChar (a / 4), sextetChar (a % 4 * 16), '=', '=']
  | [a, b] =>
      [sextetChar (a / 4), sextetChar (a % 4 * 16 + b / 16),
       sextetChar (b % 16 * 4), '=']
  | a :: b :: c :: rest =>
      sextetChar (a / 4) :: sextetChar (a % 4 * 16 + b / 16) ::
      sextetChar (b % 16 * 4 + c / 64) :: sextetChar (c % 64) :: b64encode rest

/-- Standard base64 decoding, the inverse of `b64encode`. -/
def b64decode : List Char → List Nat
  | x :: y :: z :: w :: rest =>
    if w = '=' then
      if z = '=' then
        [charSextet x * 4 + charSextet y / 16]
      else
        [charSextet x * 4 + charSextet y / 16,
         charSextet y % 16 * 16 + charSextet z / 4]
    else
      (charSextet x * 4 + charSextet y / 16) ::
      (charSextet y % 16 * 16 + charSextet z / 4) ::
      (charSextet z % 4 * 64 + charSextet w) :: b64decode rest
  | _ => []

/-! ### Part A: the `encode_fonts.py` script -/

/-- An observable effect of a script run: a file write or a console print. -/
inductive Event where
  | write (path content : String)
  | print (msg : String)
deriving DecidableEq

/-- The `files` list of `encode_fonts.py`. -/
def fontFiles : List String :=
  ["src/lib/fonts/Roboto-Regular-VN.ttf", "src/lib/fonts/Roboto-Bold-VN.ttf"]

/-- Output path derivation of `encode_fonts.py`: replace `.ttf` by
`-base64.txt`, then lowercase the two font-name portions. -/
def outputPathOf (p : String) : String :=
  pyReplace
    (pyReplace (pyReplace p ".ttf" "-base64.txt")
      "Roboto-Regular-VN" "roboto-regular-vn")
    "Roboto-Bold-VN" "roboto-bold-vn"

/-- One iteration of the `encode_fonts.py` loop: if the file exists, write the
base64 encoding of its bytes to the derived output path and print a success
line; otherwise print a not-found line. -/
def encodeStep (fs : String → Option (List Nat)) (f : String) : List Event :=
  match fs f with
  | some bs =>
      [Event.write (outputPathOf f) (String.mk (b64encode bs)),
       Event.print ("Encoded " ++ f ++ " to " ++ outputPathOf f)]
  | none => [Event.print ("File not found: " ++ f)]

/-- The whole `encode_fonts.py` run over the fixed file list. -/
def encodeRun (fs : String → Option (List Nat)) : List Event :=
  fontFiles.flatMap (encodeStep fs)

/-! ### Part A: the `create_subset_script.py` script -/

/-- The Vietnamese-support unicode range string of `create_subset_script.py`. -/
def vnUnicodes : String :=
  "U+0020-007E,U+00A0-00FF,U+0102-0103,U+0110-0111,U+0128-0129,U+0168-0169,U+01A0-01B0,U+1EA0-1EF9"

/-- The `files` list of `create_subset_script.py`. -/
def subsetFiles : List String :=
  ["src/lib/fonts/Roboto-Regular.ttf", "src/lib/fonts/Roboto-Bold.ttf"]

/-- Output path derivation of the subsetting loop: replace `.ttf` by
`-VN.ttf`. -/
def subsetOutputFile (f : String) : String := pyReplace f ".ttf" "-VN.ttf"

/-- The in-process `pyftsubset` argument list built inside the loop (it is
assigned to `sys.argv` but the `try` body performs no call). -/
def pyftArgs (f : String) : List String :=
  [f,
   "--output-file=" ++ subsetOutputFile f,
   "--unicodes=" ++ vnUnicodes,
   "--layout-features=*",
   "--flavor=woff2"]

/-- Effects of the `try` block body of the subsetting loop: the body is the
single statement `pass`, so it performs nothing. -/
def tryBlockEvents (_f : String) : List Event := []

/-- One command line of `subset_fonts.bat`, as the script writes it. -/
def batLine (src dst : String) : String :=
  "python -m fontTools.subset \"" ++ src ++ "\" --output-file=\"" ++ dst ++
  "\" --unicodes=\"" ++ vnUnicodes ++ "\"\n"

/-- The full content the script writes to `subset_fonts.bat`. -/
def batContent : String :=
  batLine "src/lib/fonts/Roboto-Regular.ttf" "src/lib/fonts/Roboto-Regular-VN.ttf" ++
  batLine "src/lib/fonts/Roboto-Bold.ttf" "src/lib/fonts/Roboto-Bold-VN.ttf"

/-- The whole `create_subset_script.py` run: a print per loop iteration, the
(no-op) `try` body, then the single `subset_fonts.bat` write and a final
print. -/
def subsetScriptRun : List Event :=
  (subsetFiles.flatMap fun f =>
    Event.print ("Subsetting " ++ f ++ " to " ++ subsetOutputFile f ++ "...") ::
    tryBlockEvents f) ++
  [Event.write "subset_fonts.bat" batContent,
   Event.print "Created subset_fonts.bat"]

/-- The file writes contained in an event trace. -/
def writesOf (evts : List Event) : List (String × String) :=
  evts.filterMap fun e =>
    match e with
    | Event.write p c => some (p, c)
    | Event.print _ => none

/-- Concrete filesystem for the C2 witness: only the Regular font exists. -/
def wFs2 : String → Option (List Nat) := fun p =>
  if p = "src/lib/fonts/Roboto-Regular-VN.ttf" then some [77, 200, 3, 9] else none

/-- Concrete filesystem for the C9 witness: the Regular font is missing and
the Bold font exists. -/
def wFs9 : String → Option (List Nat) := fun p =>
  if p = "src/lib/fonts/Roboto-Bold-VN.ttf" then some [1, 2] else none

/-!
### Part B: the command-catalog help engine

The engine described by the specification (metadata extractor, catalog
builder, intent classifier and resolvers) is not present in the repository's
source tree, so every definition below is modelled from the specification's
words.
-/

/-- Modelled from the spec: trim surrounding whitespace from a character
list (the missing engine's input/field trimming). -/
def trimChars (cs : List Char) : List Char :=
  ((cs.dropWhile Char.isWhitespace).reverse.dropWhile Char.isWhitespace).reverse

/-- Modelled from the spec: case-insensitive comparison is by lowercasing. -/
def lowerChars (cs : List Char) : List Char := cs.map Char.toLower

/-- Modelled from the spec: number of maximal whitespace-separated tokens. -/
def wordCount (cs : List Char) : Nat :=
  (cs.foldl
    (fun st c =>
      if c.isWhitespace then (st.1, false)
      else if st.2 then st else (st.1 + 1, true))
    ((0, false) : Nat × Bool)).1

/-- Modelled from the spec (Metadata Extractor): a header block is recognized
only if the content begins with the fixed 3-character delimiter. -/
def startsWithDelim : List Char → Bool
  | '-' :: '-' :: '-' :: _ => true
  | _ => false

/-- Modelled from the spec (Metadata Extractor): the block ends at the next
occurrence of the delimiter (or at the end of the content). -/
def takeUntilDelim : List Char → List Char
  | [] => []
  | '-' :: '-' :: '-' :: _ => []
  | c :: rest => c :: takeUntilDelim rest

/-- Split a character list into lines at newline characters. -/
def splitLines : List Char → List (List Char)
  | [] => [[]]
  | c :: rest =>
    if c = '\n' then [] :: splitLines rest
    else
      match splitLines rest with
      | [] => [[c]]
      | l :: ls => (c :: l) :: ls

/-- Modelled from the spec (Metadata Extractor): split a line once on the
first colon, or fail when the line has no colon. -/
def splitFirstColon : List Char → Option (List Char × List Char)
  | [] => none
  | c :: rest =>
    if c = ':' then some ([], rest)
    else (splitFirstColon rest).map fun p => (c :: p.1, p.2)

/-- Modelled from the spec (Metadata Extractor): a line with a `key: value`
shape becomes one mapping entry, trimmed of surrounding whitespace; a line
without a colon yields nothing. -/
def parseKVLine (line : List Char) : Option (String × String) :=
  (splitFirstColon line).map fun p =>
    (String.mk (trimChars p.1), String.mk (trimChars p.2))

/-- Modelled from the spec (Metadata Extractor, missing from the source tree):
given a document's text content (`none` models a read failure), return the
mapping of header fields to values, or an empty mapping if no valid header
block is found; a read failure also yields an empty mapping. -/
def extractMetadata : Option String → List (String × String)
  | none => []
  | some content =>
    if startsWithDelim content.data then
      (splitLines (takeUntilDelim (content.data.drop 3))).filterMap parseKVLine
    else []

/-- A source document: its path segments relative to the root (extension
already stripped from the leaf) and its text content (`none` models an
unreadable document). -/
structure Doc where
  segs : List String
  content : Option String
deriving DecidableEq

/-- A catalog command record. -/
structure Command where
  name : String
  description : String
  category : String
deriving DecidableEq

/-- Modelled from the spec (Catalog Builder): path segments joined with the
`:` separator give the raw command identifier. -/
def identifierOf (segs : List String) : String := String.intercalate ":" segs

/-- Modelled from the spec (Catalog Builder): a document directly under root
has category `core`, a nested document's category is its first path
segment. -/
def categoryOf : List String → String
  | [_] => "core"
  | s :: _ :: _ => s
  | [] => "core"

/-- Modelled from the spec (Catalog Builder): strip a leading run of
non-alphanumeric, non-whitespace decoration characters from the raw
description, then surrounding whitespace. -/
def cleanDescription (s : String) : String :=
  String.mk (trimChars (s.data.dropWhile fun c => !c.isAlphanum && !c.isWhitespace))

/-- Modelled from the spec (Catalog Builder): the public name prepends `/`
and the configured namespace prefix to the identifier. -/
def publicName (pfx ident : String) : String := "/" ++ pfx ++ ident

/-- Boolean test that a document carries a non-empty `description` metadata
field — the filter that separates real commands from auxiliary documents. -/
def hasNonEmptyDescription (d : Doc) : Bool :=
  match (extractMetadata d.content).lookup "description" with
  | some s => !(s == "")
  | none => false

/-- Modelled from the spec (Catalog Builder): turn one document into a
Command, or exclude it when its `description` field is absent or empty. -/
def toCommand (pfx : String) (d : Doc) : Option Command :=
  match (extractMetadata d.content).lookup "description" with
  | none => none
  | some desc =>
    if desc == "" then none
    else
      some ⟨publicName pfx (identifierOf d.segs), cleanDescription desc,
            categoryOf d.segs⟩

/-- All commands discovered from the document list, in document order. -/
def buildCommands (pfx : String) (docs : List Doc) : List Command :=
  docs.filterMap (toCommand pfx)

/-- Category keys in order of first appearance among the built commands. -/
def categoryKeys (cmds : List Command) : List String :=
  cmds.foldl (fun ks c => if c.category ∈ ks then ks else ks ++ [c.category]) []

/-- Case-sensitive ordinal comparison of character lists: `true` when the
first list is lexicographically at most the second by character codepoint. -/
def charsLe : List Char → List Char → Bool
  | [], _ => true
  | _ :: _, [] => false
  | a :: as, b :: bs =>
    if a < b then true else if b < a then false else charsLe as bs

/-- Ordering of commands by public name (case-sensitive ordinal order). -/
def commandLE (a b : Command) : Prop := charsLe a.name.data b.name.data = true

instance : DecidableRel commandLE := fun a b =>
  inferInstanceAs (Decidable (charsLe a.name.data b.name.data = true))

/-- Modelled from the spec (Catalog Builder, missing from the source tree):
group the commands by category; within each category, sort commands by public
name in case-sensitive ordinal order. -/
def catalogFor (pfx : String) (docs : List Doc) : List (String × List Command) :=
  let cmds := buildCommands pfx docs
  (categoryKeys cmds).map fun k =>
    (k, List.insertionSort commandLE (cmds.filter fun c => c.category == k))

/-- The catalog flattened in its insertion order: category order as built,
then per-category sorted order. -/
def allCatalogCommands (pfx : String) (docs : List Doc) : List Command :=
  (catalogFor pfx docs).flatMap Prod.snd

/-! ### Part B: intent classification -/

/-- The five presentation intents. -/
inductive Intent where
  | overview
  | category
  | command
  | task
  | search
deriving DecidableEq

/-- Check 1 of the classifier: empty or whitespace-only input. -/
def blankInput (input : String) : Bool := (trimChars input.data).isEmpty

/-- Check 2 of the classifier: input equals (case-insensitively) a known
category key. -/
def matchesCategory (input : String) (keys : List String) : Bool :=
  keys.any fun k => lowerChars (trimChars input.data) == lowerChars k.data

/-- Check 3 of the classifier: input contains a namespace/command separator
character (`/` or `:`). -/
def hasSeparator (input : String) : Bool :=
  (trimChars input.data).any fun c => c == '/' || c == ':'

/-- Check 4 of the classifier: input splits into two or more
whitespace-separated tokens. -/
def multiWord (input : String) : Bool :=
  decide (2 ≤ wordCount (trimChars input.data))

/-- Modelled from the spec (Intent Classifier, missing from the source tree):
given the raw input string and the catalog's category keys, return exactly
one intent by the fixed ordered checks 1-5. -/
def classifyIntent (input : String) (keys : List String) : Intent :=
  if blankInput input then Intent.overview
  else if matchesCategory input keys then Intent.category
  else if hasSeparator input then Intent.command
  else if multiWord input then Intent.task
  else Intent.search

/-! ### Part B: resolvers -/

/-- A resolver's structured result; its constructor determines the
presentation-type tag. -/
inductive Output where
  | overviewOut (total : Nat) (catCounts : List (String × Nat))
  | categoryGuide (key : String) (cmds : List Command)
  | categoryNotFound (keys : List String)
  | commandDetail (c : Command) (related : List Command)
  | taskRec (top : String) (picks : List Command)
  | taskNotSure (keys : List String)
  | searchResults (shown : List Command) (total : Nat)
  | searchEmpty (keys : List String)
deriving DecidableEq

/-- The presentation-type tag of a resolver result. -/
def tagOf : Output → Intent
  | Output.overviewOut .. => Intent.overview
  | Output.categoryGuide .. => Intent.category
  | Output.categoryNotFound .. => Intent.category
  | Output.commandDetail .. => Intent.command
  | Output.taskRec .. => Intent.task
  | Output.taskNotSure .. => Intent.task
  | Output.searchResults .. => Intent.search
  | Output.searchEmpty .. => Intent.search

/-- Modelled from the spec (Command Resolver): normalization strips the `/`
namespace marker and all `/` and `:` separator characters. -/
def normalizeCmd (s : String) : String :=
  String.mk (s.data.filter fun c => !(c == '/' || c == ':'))

/-- Modelled from the spec (Command Resolver): on a miss, the input is handed
to the Search Resolver with command separators replaced by spaces. -/
def sepToSpace (s : String) : String :=
  String.mk (s.data.map fun c => if c == '/' || c == ':' then ' ' else c)

/-- Modelled from the spec (Search Resolver): the commands whose name or
description contains the term as a case-insensitive substring. -/
def searchMatches (term : String) (cmds : List Command) : List Command :=
  cmds.filter fun c =>
    hasSub (lowerChars term.data) (lowerChars c.name.data) ||
    hasSub (lowerChars term.data) (lowerChars c.description.data)

/-- Modelled from the spec (Search Resolver, missing from the source tree):
zero matches give a no-matches report with the category list; otherwise up to
the first 8 matches are rendered and the total match count is reported. -/
def searchResolve (term : String) (cmds : List Command) : Output :=
  let ms := searchMatches term cmds
  if ms.isEmpty then Output.searchEmpty (categoryKeys cmds)
  else Output.searchResults (ms.take 8) ms.length

/-- Modelled from the spec (Command Resolver): up to 3 related commands from
the matched command's category, excluding itself, in catalog order. -/
def relatedOf (c : Command) (cmds : List Command) : List Command :=
  (cmds.filter fun d => d.category == c.category && !(d.name == c.name)).take 3

/-- Modelled from the spec (Command Resolver, missing from the source tree):
exact normalized-string match of the input against every command's name; on a
miss, delegate to the Search Resolver using the input with command separators
replaced by spaces. -/
def commandResolve (input : String) (cmds : List Command) : Output :=
  match cmds.find? (fun c => normalizeCmd c.name == normalizeCmd input) with
  | some c => Output.commandDetail c (relatedOf c cmds)
  | none => searchResolve (sepToSpace input) cmds

/-- Modelled from the spec (Category Resolver, missing from the source tree):
case-insensitive lookup of the input against category keys; on a miss report
not-found with all available keys. -/
def categoryResolve (input : String) (cmds : List Command) : Output :=
  let keys := categoryKeys cmds
  match keys.find? (fun k => lowerChars k.data == lowerChars (trimChars input.data)) with
  | some k =>
      Output.categoryGuide k
        (List.insertionSort commandLE (cmds.filter fun c => c.category == k))
  | none => Output.categoryNotFound keys

/-- Modelled from the spec (Overview Resolver, missing from the source tree):
summary counts and per-category counts; always succeeds. -/
def overviewResolve (cmds : List Command) : Output :=
  Output.overviewOut cmds.length
    ((categoryKeys cmds).map fun k =>
      (k, (cmds.filter fun c => c.category == k).length))

/-- Modelled from the spec (Task Recommender, missing from the source tree):
score categories by keyword substring hits in the lower-cased input, exclude
zero scores, rank by descending score with ties in registry order, and render
picks from the top categories; with no scored category report not-sure. -/
def taskResolve (registry : List (String × List String)) (input : String)
    (cmds : List Command) : Output :=
  let scored := registry.filterMap fun kw =>
    let s := (kw.2.filter fun w =>
      hasSub (lowerChars w.data) (lowerChars input.data)).length
    if s = 0 then none else some (kw.1, s)
  let ranked := List.insertionSort (fun a b : String × Nat => b.2 < a.2) scored
  match ranked with
  | [] => Output.taskNotSure (categoryKeys cmds)
  | top :: _ =>
    let picks :=
      (((ranked.take 2).map Prod.fst).flatMap fun k =>
        (cmds.filter fun c => c.category == k).take 2).take 4
    Output.taskRec top.1 picks

/-- Dispatch to exactly one resolver according to the classified intent. -/
def dispatch (registry : List (String × List String)) (intent : Intent)
    (input : String) (cmds : List Command) : Output :=
  match intent with
  | Intent.overview => overviewResolve cmds
  | Intent.category => categoryResolve input cmds
  | Intent.command => commandResolve input cmds
  | Intent.task => taskResolve registry input cmds
  | Intent.search => searchResolve input cmds

/-! ### Part B: the per-invocation run -/

/-- The run environment: whether the root directory exists, and the document
tree discovered under it. -/
structure Env where
  rootExists : Bool
  docs : List Doc

/-- Outcome of one process invocation: a fatal error with a non-zero exit
status and an error line, or a successful run emitting a presentation-type
marker. -/
inductive RunResult where
  | fatal (msg : String)
  | success (out : Output)
deriving DecidableEq

/-- Whether a run outcome is the fatal (non-zero exit) one. -/
def isFatal : RunResult → Bool
  | RunResult.fatal _ => true
  | RunResult.success _ => false

/-- Modelled from the spec (external interfaces / error handling, missing
from the source tree): a missing root directory and an empty discovered
catalog are checked explicitly at the start of the run and are fatal; every
other input classifies and dispatches to a total resolver. -/
def runMain (registry : List (String × List String)) (pfx : String)
    (env : Env) (query : String) : RunResult :=
  if env.rootExists = false then RunResult.fatal "Commands directory not found"
  else
    let cmds := allCatalogCommands pfx env.docs
    if cmds.isEmpty then RunResult.fatal "No commands found"
    else
      RunResult.success
        (dispatch registry (classifyIntent query (categoryKeys cmds)) query cmds)

/-! ### Part B: concrete data for witnesses -/

/-- Two documents in the `core` category, listed out of name order. -/
def wDocs : List Doc :=
  [⟨["b"], some "---\ndescription: B doc\n---"⟩,
   ⟨["a"], some "---\ndescription: A doc\n---"⟩]

/-- Ten commands whose names all contain the letter `t`. -/
def wtCmds : List Command :=
  [⟨"/t0", "d0", "core"⟩, ⟨"/t1", "d1", "core"⟩, ⟨"/t2", "d2", "core"⟩,
   ⟨"/t3", "d3", "core"⟩, ⟨"/t4", "d4", "core"⟩, ⟨"/t5", "d5", "core"⟩,
   ⟨"/t6", "d6", "core"⟩, ⟨"/t7", "d7", "core"⟩, ⟨"/t8", "d8", "core"⟩,
   ⟨"/t9", "d9", "core"⟩]

/-- A one-command catalog used by the C4 witness. -/
def wFixCmds : List Command :=
  [⟨"/fix:login", "Fix the login flow", "fix"⟩]

/-! ### Theorems: Part A base64 round-trip -/

theorem charSextet_sextetChar_range :
    ∀ n ∈ List.range 64, charSextet (sextetChar n) = n := by decide

theorem charSextet_sextetChar {n : Nat} (h : n < 64) :
    charSextet (sextetChar n) = n :=
  charSextet_sextetChar_range n (List.mem_range.mpr h)

theorem sextetChar_ne_pad_range : ∀ n ∈ List.range 64, sextetChar n ≠ '=' := by
  decide

theorem sextetChar_ne_pad {n : Nat} (h : n < 64) : sextetChar n ≠ '=' :=
  sextetChar_ne_pad_range n (List.mem_range.mpr h)

/-- Base64 decoding inverts base64 encoding on byte sequences. -/
theorem b64_roundtrip :
    ∀ bs : List Nat, (∀ b ∈ bs, b < 256) → b64decode (b64encode bs) = bs
  | [], _ => by simp [b64encode, b64decode]
  | [a], h => by
    have ha : a < 256 := h a (by simp)
    have h1 : a / 4 < 64 := by omega
    have h2 : a % 4 * 16 < 64 := by omega
    simp only [b64encode, b64decode, reduceIte,
      charSextet_sextetChar h1, charSextet_sextetChar h2,
      List.cons.injEq, and_true]
    omega
  | [a, b], h => by
    have ha : a < 256 := h a (by simp)
    have hb : b < 256 := h b (by simp)
    have h1 : a / 4 < 64 := by omega
    have h2 : a % 4 * 16 + b / 16 < 64 := by omega
    have h3 : b % 16 * 4 < 64 := by omega
    simp only [b64encode, b64decode, reduceIte, if_neg (sextetChar_ne_pad h3),
      charSextet_sextetChar h1, charSextet_sextetChar h2,
      charSextet_sextetChar h3, List.cons.injEq, and_true]
    omega
  | a :: b :: c :: rest, h => by
    have ha : a < 256 := h a (by simp)
    have hb : b < 256 := h b (by simp)
    have hc : c < 256 := h c (by simp)
    have h1 : a / 4 < 64 := by omega
    have h2 : a % 4 * 16 + b / 16 < 64 := by omega
    have h3 : b % 16 * 4 + c / 64 < 64 := by omega
    have h4 : c % 64 < 64 := by omega
    have ih : b64decode (b64encode rest) = rest :=
      b64_roundtrip rest (fun x hx => h x (by simp [hx]))
    simp only [b64encode, b64decode, if_neg (sextetChar_ne_pad h4),
      charSextet_sextetChar h1, charSextet_sextetChar h2,
      charSextet_sextetChar h3, charSextet_sextetChar h4, ih,
      List.cons.injEq, and_true]
    omega

/-! ### Theorems: claims about the two scripts -/

/-- C2: for every listed font file that exists, the encode step writes, at the
output path derived by replacing `.ttf` with `-base64.txt` and lowercasing the
font-name portion, a text file whose content is exactly the base64 encoding of
the file's bytes, so decoding the written text yields the original bytes. -/
theorem encode_step_writes_base64 (fs : String → Option (List Nat)) (f : String)
    (bs : List Nat) (hf : f ∈ fontFiles) (hfs : fs f = some bs)
    (hb : ∀ b ∈ bs, b < 256) :
    Event.write (outputPathOf f) (String.mk (b64encode bs)) ∈ encodeRun fs
    ∧ b64decode (String.mk (b64encode bs)).data = bs
    ∧ outputPathOf "src/lib/fonts/Roboto-Regular-VN.ttf" =
        "src/lib/fonts/roboto-regular-vn-base64.txt"
    ∧ outputPathOf "src/lib/fonts/Roboto-Bold-VN.ttf" =
        "src/lib/fonts/roboto-bold-vn-base64.txt" := by
  refine ⟨?_, b64_roundtrip bs hb, by decide, by decide⟩
  exact List.mem_flatMap.mpr ⟨f, hf, by simp [encodeStep, hfs]⟩

theorem encode_step_writes_base64_witness :
    Event.write (outputPathOf "src/lib/fonts/Roboto-Regular-VN.ttf")
        (String.mk (b64encode [77, 200, 3, 9])) ∈ encodeRun wFs2
    ∧ b64decode (String.mk (b64encode [77, 200, 3, 9])).data = [77, 200, 3, 9]
    ∧ outputPathOf "src/lib/fonts/Roboto-Regular-VN.ttf" =
        "src/lib/fonts/roboto-regular-vn-base64.txt"
    ∧ outputPathOf "src/lib/fonts/Roboto-Bold-VN.ttf" =
        "src/lib/fonts/roboto-bold-vn-base64.txt" :=
  encode_step_writes_base64 wFs2 "src/lib/fonts/Roboto-Regular-VN.ttf"
    [77, 200, 3, 9] (by decide) (by decide) (by decide)

/-- C9: for every listed font file that does not exist, the encode step prints
a not-found message and writes nothing for it, while every existing listed
file is still encoded and written; the loop body is total, so no exception is
raised. -/
theorem encode_missing_file_skipped (fs : String → Option (List Nat))
    (f : String) (hf : f ∈ fontFiles) (hmiss : fs f = none) :
    Event.print ("File not found: " ++ f) ∈ encodeRun fs
    ∧ (∀ p c, Event.write p c ∈ encodeRun fs →
        ∃ g bs, g ∈ fontFiles ∧ g ≠ f ∧ fs g = some bs ∧
          p = outputPathOf g ∧ c = String.mk (b64encode bs))
    ∧ (∀ g bs, g ∈ fontFiles → fs g = some bs →
        Event.write (outputPathOf g) (String.mk (b64encode bs)) ∈ encodeRun fs) := by
  refine ⟨List.mem_flatMap.mpr ⟨f, hf, by simp [encodeStep, hmiss]⟩, ?_, ?_⟩
  · intro p c hpc
    obtain ⟨g, hg, hmem⟩ := List.mem_flatMap.mp hpc
    cases hgs : fs g with
    | none => simp [encodeStep, hgs] at hmem
    | some bs =>
      simp only [encodeStep, hgs, List.mem_cons, List.not_mem_nil, or_false]
        at hmem
      rcases hmem with hmem | hmem
      · injection hmem with hp hc
        refine ⟨g, bs, hg, ?_, hgs, hp, hc⟩
        intro hgf
        rw [hgf, hmiss] at hgs
        exact Option.noConfusion hgs
      · exact Event.noConfusion hmem
  · intro g bs hg hgs
    exact List.mem_flatMap.mpr ⟨g, hg, by simp [encodeStep, hgs]⟩

theorem encode_missing_file_skipped_witness :
    Event.print ("File not found: " ++ "src/lib/fonts/Roboto-Regular-VN.ttf")
        ∈ encodeRun wFs9
    ∧ Event.write (outputPathOf "src/lib/fonts/Roboto-Bold-VN.ttf")
        (String.mk (b64encode [1, 2])) ∈ encodeRun wFs9 :=
  ⟨(encode_missing_file_skipped wFs9 "src/lib/fonts/Roboto-Regular-VN.ttf"
      (by decide) (by decide)).1,
   (encode_missing_file_skipped wFs9 "src/lib/fonts/Roboto-Regular-VN.ttf"
      (by decide) (by decide)).2.2 "src/lib/fonts/Roboto-Bold-VN.ttf" [1, 2]
      (by decide) (by decide)⟩

/-- C10: the subsetting loop's `try` body is a no-op (no in-process
subsetting), and the only write the script performs is `subset_fonts.bat`,
whose content is exactly two `fontTools.subset` command lines — one per listed
font, with the output path derived by replacing `.ttf` with `-VN.ttf` and the
fixed Vietnamese unicode-range string — and which omits the
`--layout-features` and `--flavor` flags that the unused in-process argument
list contains. -/
theorem subset_script_only_writes_bat :
    writesOf subsetScriptRun = [("subset_fonts.bat", batContent)]
    ∧ (∀ f, tryBlockEvents f = [])
    ∧ batContent =
        batLine "src/lib/fonts/Roboto-Regular.ttf"
          (subsetOutputFile "src/lib/fonts/Roboto-Regular.ttf") ++
        batLine "src/lib/fonts/Roboto-Bold.ttf"
          (subsetOutputFile "src/lib/fonts/Roboto-Bold.ttf")
    ∧ (batContent.data.filter (· == '\n')).length = 2
    ∧ hasSub "fontTools.subset".data batContent.data = true
    ∧ hasSub vnUnicodes.data batContent.data = true
    ∧ hasSub "--layout-features".data batContent.data = false
    ∧ hasSub "--flavor".data batContent.data = false
    ∧ (∀ f, "--layout-features=*" ∈ pyftArgs f ∧ "--flavor=woff2" ∈ pyftArgs f) := by
  refine ⟨by decide, fun f => rfl, by decide, by decide, by decide, by decide,
    by decide, by decide, fun f => ⟨?_, ?_⟩⟩
  · simp [pyftArgs]
  · simp [pyftArgs]

/-! ### Theorems: metadata extractor (C6) -/

/-- A line all of whose characters differ from the colon has no first-colon
split. -/
theorem splitFirstColon_eq_none :
    ∀ cs : List Char, (∀ c ∈ cs, c ≠ ':') → splitFirstColon cs = none := by
  intro cs
  induction cs with
  | nil => intro _; rfl
  | cons c rest ih =>
    intro h
    simp only [splitFirstColon, if_neg (h c (List.mem_cons_self c rest)),
      ih fun x hx => h x (List.mem_cons_of_mem c hx)]
    rfl

/-- A line containing a colon has a first-colon split. -/
theorem splitFirstColon_isSome :
    ∀ cs : List Char, ':' ∈ cs → (splitFirstColon cs).isSome = true := by
  intro cs
  induction cs with
  | nil => intro h; exact absurd h (List.not_mem_nil ':')
  | cons c rest ih =>
    intro h
    by_cases hc : c = ':'
    · simp [splitFirstColon, hc]
    · have hr : ':' ∈ rest := by
        rcases List.mem_cons.mp h with h' | h'
        · exact absurd h'.symm hc
        · exact h'
      simp [splitFirstColon, hc, Option.isSome_map, ih hr]

/-- C6: the Metadata Extractor returns an empty mapping on a read failure and
on content that does not begin with the 3-character delimiter; on delimited
content it returns exactly the parsed entries of the block's lines, where a
line without a colon is silently skipped and a line with a colon yields an
entry. -/
theorem metadata_extractor_spec :
    extractMetadata none = []
    ∧ (∀ c : String, startsWithDelim c.data = false → extractMetadata (some c) = [])
    ∧ (∀ c : String, startsWithDelim c.data = true →
        extractMetadata (some c) =
          (splitLines (takeUntilDelim (c.data.drop 3))).filterMap parseKVLine)
    ∧ (∀ line : List Char, (∀ ch ∈ line, ch ≠ ':') → parseKVLine line = none)
    ∧ (∀ line : List Char, ':' ∈ line → (parseKVLine line).isSome = true) := by
  refine ⟨rfl, ?_, ?_, ?_, ?_⟩
  · intro c h
    simp [extractMetadata, h]
  · intro c h
    simp [extractMetadata, h]
  · intro line h
    simp [parseKVLine, splitFirstColon_eq_none line h]
  · intro line h
    simp [parseKVLine, Option.isSome_map, splitFirstColon_isSome line h]

theorem metadata_extractor_spec_witness :
    extractMetadata (some "no header here") = []
    ∧ parseKVLine "just a plain line".data = none
    ∧ (parseKVLine "description: Fix things".data).isSome = true :=
  ⟨metadata_extractor_spec.2.1 "no header here" (by decide),
   metadata_extractor_spec.2.2.2.1 "just a plain line".data (by decide),
   metadata_extractor_spec.2.2.2.2 "description: Fix things".data (by decide)⟩

/-! ### Theorems: catalog builder description filter (C5) -/

/-- C5: a document becomes a Command exactly when its `description` metadata
field is present and non-empty, and the catalog's total command count equals
the number of such documents. -/
theorem catalog_filters_on_description (pfx : String) (docs : List Doc) :
    (∀ d : Doc, (toCommand pfx d).isSome = hasNonEmptyDescription d)
    ∧ (buildCommands pfx docs).length =
        (docs.filter hasNonEmptyDescription).length := by
  have hiff : ∀ d : Doc, (toCommand pfx d).isSome = hasNonEmptyDescription d := by
    intro d
    unfold toCommand hasNonEmptyDescription
    cases h : (extractMetadata d.content).lookup "description" with
    | none => rfl
    | some desc => cases hd : desc == "" <;> simp [hd]
  refine ⟨hiff, ?_⟩
  induction docs with
  | nil => rfl
  | cons d ds ih =>
    cases hc : toCommand pfx d with
    | none =>
      have hd : hasNonEmptyDescription d = false := by
        rw [← hiff d, hc]
        rfl
      have h1 : buildCommands pfx (d :: ds) = buildCommands pfx ds := by
        simp [buildCommands, hc]
      have h2 : (d :: ds).filter hasNonEmptyDescription =
          ds.filter hasNonEmptyDescription := by
        simp [List.filter_cons, hd]
      rw [h1, h2]
      exact ih
    | some cmd =>
      have hd : hasNonEmptyDescription d = true := by
        rw [← hiff d, hc]
        rfl
      have h1 : buildCommands pfx (d :: ds) = cmd :: buildCommands pfx ds := by
        simp [buildCommands, hc]
      have h2 : (d :: ds).filter hasNonEmptyDescription =
          d :: ds.filter hasNonEmptyDescription := by
        simp [List.filter_cons, hd]
      rw [h1, h2]
      simp only [List.length_cons]
      exact congrArg Nat.succ ih

/-! ### Theorems: catalog ordering and normalization (C7) -/

/-- The hand-written ordinal comparison is total. -/
theorem charsLe_total :
    ∀ xs ys : List Char, charsLe xs ys = true ∨ charsLe ys xs = true := by
  intro xs
  induction xs with
  | nil => intro ys; exact Or.inl rfl
  | cons a as ih =>
    intro ys
    cases ys with
    | nil => exact Or.inr rfl
    | cons b bs =>
      rcases lt_trichotomy a b with h | h | h
      · left
        simp [charsLe, h]
      · subst h
        simp only [charsLe, lt_irrefl, if_false]
        exact ih bs
      · right
        simp [charsLe, h]

/-- The hand-written ordinal comparison is transitive. -/
theorem charsLe_trans :
    ∀ xs ys zs : List Char, charsLe xs ys = true → charsLe ys zs = true →
      charsLe xs zs = true := by
  intro xs
  induction xs with
  | nil => intro ys zs _ _; rfl
  | cons a as ih =>
    intro ys zs h1 h2
    cases ys with
    | nil => simp [charsLe] at h1
    | cons b bs =>
      cases zs with
      | nil => simp [charsLe] at h2
      | cons c cs =>
        simp only [charsLe] at h1 h2 ⊢
        by_cases hab : a < b <;> by_cases hbc : b < c
        · simp [lt_trans hab hbc]
        · by_cases hcb : c < b
          · simp [hbc, hcb] at h2
          · have hbc' : b = c := le_antisymm (not_lt.mp hcb) (not_lt.mp hbc)
            subst hbc'
            simp [hab]
        · by_cases hba : b < a
          · simp [hab, hba] at h1
          · have hab' : a = b := le_antisymm (not_lt.mp hba) (not_lt.mp hab)
            subst hab'
            simp [hbc]
        · by_cases hba : b < a
          · simp [hab, hba] at h1
          · by_cases hcb : c < b
            · simp [hbc, hcb] at h2
            · have hab' : a = b := le_antisymm (not_lt.mp hba) (not_lt.mp hab)
              have hbc' : b = c := le_antisymm (not_lt.mp hcb) (not_lt.mp hbc)
              subst hab'
              subst hbc'
              simp only [lt_irrefl, if_false]
              simp only [lt_irrefl, if_false] at h1 h2
              exact ih bs cs h1 h2

/-- A non-strict ordinal comparison between distinct lists is strict. -/
theorem charsLe_strict :
    ∀ xs ys : List Char, charsLe xs ys = true → xs ≠ ys →
      List.Lex (· < ·) xs ys := by
  intro xs
  induction xs with
  | nil =>
    intro ys _ hne
    cases ys with
    | nil => exact absurd rfl hne
    | cons b bs => exact List.Lex.nil
  | cons a as ih =>
    intro ys h hne
    cases ys with
    | nil => simp [charsLe] at h
    | cons b bs =>
      by_cases hab : a < b
      · exact List.Lex.rel hab
      · by_cases hba : b < a
        · simp [charsLe, hab, hba] at h
        · have hab' : a = b := le_antisymm (not_lt.mp hba) (not_lt.mp hab)
          subst hab'
          have h' : charsLe as bs = true := by
            simpa [charsLe, hab] using h
          have hne' : as ≠ bs := fun e => hne (by rw [e])
          exact List.Lex.cons (ih bs h' hne')

/-- Two pairwise facts over the same list combine pointwise. -/
theorem pairwise_combine {α : Type} {R S : α → α → Prop} :
    ∀ {l : List α}, l.Pairwise R → l.Pairwise S →
      l.Pairwise fun a b => R a b ∧ S a b := by
  intro l
  induction l with
  | nil => intro _ _; exact List.Pairwise.nil
  | cons a rest ih =>
    intro h1 h2
    rcases List.pairwise_cons.mp h1 with ⟨ha1, hr1⟩
    rcases List.pairwise_cons.mp h2 with ⟨ha2, hr2⟩
    exact List.pairwise_cons.mpr ⟨fun b hb => ⟨ha1 b hb, ha2 b hb⟩, ih hr1 hr2⟩

/-- C7: within every category of a built catalog the commands are in
ascending case-sensitive ordinal order of public name — strictly ascending
when the names are distinct, as the data model guarantees — and the Command
Resolver's normalization is idempotent. -/
theorem catalog_sorted_and_normalize_idem :
    (∀ pfx docs k cs, (k, cs) ∈ catalogFor pfx docs →
      cs.Pairwise commandLE
      ∧ ((cs.map Command.name).Nodup →
          List.Pairwise (fun n₁ n₂ : String => n₁ < n₂) (cs.map Command.name)))
    ∧ (∀ s : String, normalizeCmd (normalizeCmd s) = normalizeCmd s) := by
  constructor
  · intro pfx docs k cs hmem
    obtain ⟨k', _, heq⟩ := List.mem_map.mp hmem
    have hcs : cs = List.insertionSort commandLE
        ((buildCommands pfx docs).filter fun c => c.category == k') := by
      have := (Prod.mk.injEq .. ▸ heq).2
      exact this.symm
    haveI : IsTotal Command commandLE :=
      ⟨fun a b => charsLe_total a.name.data b.name.data⟩
    haveI : IsTrans Command commandLE :=
      ⟨fun a b c => charsLe_trans a.name.data b.name.data c.name.data⟩
    have hsorted : cs.Pairwise commandLE := by
      rw [hcs]
      exact List.sorted_insertionSort commandLE _
    refine ⟨hsorted, ?_⟩
    intro hnodup
    have hne : cs.Pairwise fun a b : Command => a.name ≠ b.name := by
      have := (List.pairwise_map).mp hnodup
      exact this.imp fun h => h
    rw [List.pairwise_map]
    exact (pairwise_combine hsorted hne).imp fun h =>
      String.lt_iff_toList_lt.mpr
        (charsLe_strict _ _ h.1 fun e => h.2 (String.toList_inj.mp e))
  · intro s
    have hff : ∀ l : List Char,
        (l.filter fun c => !(c == '/' || c == ':')).filter
          (fun c => !(c == '/' || c == ':')) =
        l.filter fun c => !(c == '/' || c == ':') := by
      intro l
      rw [List.filter_filter]
      exact List.filter_congr fun c _ => Bool.and_self _
    exact congrArg String.mk (hff s.data)

theorem catalog_sorted_and_normalize_idem_witness :
    List.Pairwise (fun n₁ n₂ : String => n₁ < n₂)
      (([⟨"/a", "A doc", "core"⟩, ⟨"/b", "B doc", "core"⟩] : List Command).map
        Command.name)
    ∧ normalizeCmd (normalizeCmd "/lx:plan") = normalizeCmd "/lx:plan" :=
  ⟨(catalog_sorted_and_normalize_idem.1 "" wDocs "core"
      [⟨"/a", "A doc", "core"⟩, ⟨"/b", "B doc", "core"⟩] (by decide)).2
      (by decide),
   catalog_sorted_and_normalize_idem.2 "/lx:plan"⟩

/-! ### Theorems: intent classifier (C1) -/

/-- C1: the classifier is total (its result type has exactly the five
intents) and is characterized exactly by the fixed ordered checks: blank
input gives overview; otherwise a case-insensitive category-key match gives
category; otherwise a separator character gives command; otherwise two or
more whitespace-separated tokens give task; otherwise search.  Being a pure
function of the input and key set, repeated calls agree. -/
theorem classifier_spec (input : String) (keys : List String) :
    (classifyIntent input keys = Intent.overview ↔ blankInput input = true)
    ∧ (classifyIntent input keys = Intent.category ↔
        blankInput input = false ∧ matchesCategory input keys = true)
    ∧ (classifyIntent input keys = Intent.command ↔
        blankInput input = false ∧ matchesCategory input keys = false ∧
        hasSeparator input = true)
    ∧ (classifyIntent input keys = Intent.task ↔
        blankInput input = false ∧ matchesCategory input keys = false ∧
        hasSeparator input = false ∧ multiWord input = true)
    ∧ (classifyIntent input keys = Intent.search ↔
        blankInput input = false ∧ matchesCategory input keys = false ∧
        hasSeparator input = false ∧ multiWord input = false) := by
  unfold classifyIntent
  cases hb : blankInput input <;>
    cases hm : matchesCategory input keys <;>
      cases hs : hasSeparator input <;>
        cases hw : multiWord input <;>
          simp

theorem classifier_spec_witness :
    classifyIntent "  " ["fix"] = Intent.overview
    ∧ classifyIntent "FIX" ["fix"] = Intent.category
    ∧ classifyIntent "plan:fast" ["fix"] = Intent.command
    ∧ classifyIntent "fix a login bug" ["fix"] = Intent.task
    ∧ classifyIntent "deploy" ["fix"] = Intent.search :=
  ⟨(classifier_spec "  " ["fix"]).1.mpr (by decide),
   (classifier_spec "FIX" ["fix"]).2.1.mpr (by decide),
   (classifier_spec "plan:fast" ["fix"]).2.2.1.mpr (by decide),
   (classifier_spec "fix a login bug" ["fix"]).2.2.2.1.mpr (by decide),
   (classifier_spec "deploy" ["fix"]).2.2.2.2.mpr (by decide)⟩

/-! ### Theorems: search resolver truncation (C3) -/

/-- C3: with at least one match, the Search Resolver renders exactly the
first `min 8 total` matches — never more than 8 — while reporting the full
match total. -/
theorem search_truncates_at_8 (term : String) (cmds : List Command)
    (h : searchMatches term cmds ≠ []) :
    searchResolve term cmds =
      Output.searchResults ((searchMatches term cmds).take 8)
        (searchMatches term cmds).length
    ∧ ((searchMatches term cmds).take 8).length =
        min 8 (searchMatches term cmds).length
    ∧ ((searchMatches term cmds).take 8).length ≤ 8 := by
  refine ⟨?_, ?_, ?_⟩
  · have hne : (searchMatches term cmds).isEmpty = false := by
      cases hm : searchMatches term cmds with
      | nil => exact absurd hm h
      | cons a l => rfl
    simp [searchResolve, hne]
  · exact List.length_take 8 (searchMatches term cmds)
  · rw [List.length_take]
    exact Nat.min_le_left 8 _

theorem search_truncates_at_8_witness :
    searchResolve "t" wtCmds =
      Output.searchResults ((searchMatches "t" wtCmds).take 8)
        (searchMatches "t" wtCmds).length
    ∧ (searchMatches "t" wtCmds).length = 10
    ∧ ((searchMatches "t" wtCmds).take 8).length = 8 :=
  ⟨(search_truncates_at_8 "t" wtCmds (by decide)).1, by decide, by decide⟩

/-! ### Theorems: command resolver cascade (C4) -/

/-- The Search Resolver's presentation tag is always the search tag. -/
theorem tagOf_searchResolve (term : String) (cmds : List Command) :
    tagOf (searchResolve term cmds) = Intent.search := by
  unfold searchResolve
  by_cases h : (searchMatches term cmds).isEmpty <;> simp [h, tagOf]

/-- C4: when no catalog command matches the normalized input, the Command
Resolver produces exactly the Search Resolver's result on the input with
command separators replaced by spaces, so its presentation tag equals the
Search Resolver's tag (and is the search tag, not a bare not-found). -/
theorem command_miss_cascades_to_search (input : String) (cmds : List Command)
    (h : ∀ c ∈ cmds, normalizeCmd c.name ≠ normalizeCmd input) :
    commandResolve input cmds = searchResolve (sepToSpace input) cmds
    ∧ tagOf (commandResolve input cmds) =
        tagOf (searchResolve (sepToSpace input) cmds)
    ∧ tagOf (commandResolve input cmds) = Intent.search := by
  have hfind : cmds.find?
      (fun c => normalizeCmd c.name == normalizeCmd input) = none := by
    apply List.find?_eq_none.mpr
    intro c hc
    simp [h c hc]
  have heq : commandResolve input cmds = searchResolve (sepToSpace input) cmds := by
    simp [commandResolve, hfind]
  exact ⟨heq, by rw [heq], by rw [heq]; exact tagOf_searchResolve _ _⟩

theorem command_miss_cascades_to_search_witness :
    commandResolve "doesnotexist" wFixCmds =
      searchResolve (sepToSpace "doesnotexist") wFixCmds
    ∧ tagOf (commandResolve "doesnotexist" wFixCmds) = Intent.search :=
  ⟨(command_miss_cascades_to_search "doesnotexist" wFixCmds (by decide)).1,
   (command_miss_cascades_to_search "doesnotexist" wFixCmds (by decide)).2.2⟩

/-! ### Theorems: run exit behavior (C8) -/

/-- C8: the run is fatal (non-zero exit with an error line) exactly when the
root directory is missing or the discovered catalog is empty; every other run
succeeds and emits a presentation result, and every component function it
calls is total, so nothing raises past a component boundary. -/
theorem run_exit_behavior (registry : List (String × List String))
    (pfx : String) (env : Env) (query : String) :
    isFatal (runMain registry pfx env query) =
      (!env.rootExists || (allCatalogCommands pfx env.docs).isEmpty)
    ∧ (isFatal (runMain registry pfx env query) = false →
        ∃ out, runMain registry pfx env query = RunResult.success out) := by
  constructor
  · cases henv : env.rootExists with
    | false => simp [runMain, henv, isFatal]
    | true =>
      cases hempty : (allCatalogCommands pfx env.docs).isEmpty with
      | true => simp [runMain, henv, hempty, isFatal]
      | false => simp [runMain, henv, hempty, isFatal]
  · intro hnf
    cases henv : env.rootExists with
    | false => simp [runMain, henv, isFatal] at hnf
    | true =>
      cases hempty : (allCatalogCommands pfx env.docs).isEmpty with
      | true => simp [runMain, henv, hempty, isFatal] at hnf
      | false =>
        refine ⟨dispatch registry
          (classifyIntent query (categoryKeys (allCatalogCommands pfx env.docs)))
          query (allCatalogCommands pfx env.docs), ?_⟩
        simp [runMain, henv, hempty]

theorem run_exit_behavior_witness :
    isFatal (runMain [] "" ⟨true, wDocs⟩ "plan") =
      (!(true : Bool) || (allCatalogCommands "" wDocs).isEmpty)
    ∧ (∃ out, runMain [] "" ⟨true, wDocs⟩ "plan" = RunResult.success out) :=
  ⟨(run_exit_behavior [] "" ⟨true, wDocs⟩ "plan").1,
   (run_exit_behavior [] "" ⟨true, wDocs⟩ "plan").2 (by decide)⟩
